import Mathlib

/-!
Verification development for the hecs-schedule core: resource access
descriptors and greedy batching (Schedule), the runtime borrow registry
(Context), SubWorld capability checking, the CommandBuffer drain, schedule
execution with error propagation, and the lifetime-erased borrow wrappers.

The repository sources available are `src/lib.rs` (crate documentation),
`src/traits.rs` (the View and QueryExt traits) and `src/borrow/into_borrow.rs`
(the impl_into_borrow expansion).  The schedule, context, commandbuffer,
subworld and error modules are declared in `src/lib.rs` but their files are
not present; the corresponding definitions below are modelled from the
specification text and are marked as such in their doc comments.
-/

/-- Modelled from the spec: mutability of one resource access,
from the spec's AccessDescriptor data model (module `access` is missing). -/
inductive Mutability where
  | read
  | write
deriving DecidableEq, Repr

/-- Modelled from the spec: an AccessDescriptor identifies one resource slot a
work unit touches: a resource identity plus mutability (module `access` is
missing).  Identities are modelled as natural numbers. -/
structure AccessDescriptor where
  identity : Nat
  mutability : Mutability
deriving DecidableEq, Repr

/-- Modelled from the spec: two descriptors conflict iff they have the same
identity and at least one is Write. -/
def AccessDescriptor.conflicts (a b : AccessDescriptor) : Bool :=
  a.identity == b.identity &&
    (a.mutability == Mutability.write || b.mutability == Mutability.write)

/-- Conflict between two descriptor sets: some pair of members conflicts. -/
def setConflicts (xs ys : List AccessDescriptor) : Bool :=
  xs.any fun a => ys.any fun b => a.conflicts b

/-- Propositional form of a single-descriptor conflict. -/
def Conflict (a b : AccessDescriptor) : Prop :=
  a.identity = b.identity ∧
    (a.mutability = Mutability.write ∨ b.mutability = Mutability.write)

/-- Propositional form of a descriptor-set conflict. -/
def SetConflict (xs ys : List AccessDescriptor) : Prop :=
  ∃ a ∈ xs, ∃ b ∈ ys, Conflict a b

theorem conflicts_iff (a b : AccessDescriptor) :
    a.conflicts b = true ↔ Conflict a b := by
  simp [AccessDescriptor.conflicts, Conflict]

theorem setConflicts_iff (xs ys : List AccessDescriptor) :
    setConflicts xs ys = true ↔ SetConflict xs ys := by
  simp [setConflicts, SetConflict, List.any_eq_true, conflicts_iff]

theorem conflict_symm {a b : AccessDescriptor} (h : Conflict a b) : Conflict b a :=
  ⟨h.1.symm, h.2.symm⟩

theorem setConflict_symm {xs ys : List AccessDescriptor}
    (h : SetConflict xs ys) : SetConflict ys xs := by
  obtain ⟨a, ha, b, hb, hc⟩ := h
  exact ⟨b, hb, a, ha, conflict_symm hc⟩

/-- Modelled from the spec: a batch of the Schedule's batch plan carries the
indices of the units placed in it and the union of their descriptor sets
(module `schedule` is missing). -/
structure Batch where
  units : List Nat
  accesses : List AccessDescriptor
deriving DecidableEq, Repr

/-- Modelled from the spec: place one unit into the earliest-indexed existing
batch whose union does not conflict with the unit's descriptor set, merging its
descriptors into that batch's union; otherwise open a new batch. -/
def placeUnit (batches : List Batch) (idx : Nat)
    (acc : List AccessDescriptor) : List Batch :=
  match batches with
  | [] => [⟨[idx], acc⟩]
  | b :: rest =>
    if setConflicts b.accesses acc then
      b :: placeUnit rest idx acc
    else
      ⟨b.units ++ [idx], b.accesses ++ acc⟩ :: rest

/-- Fold of `placeUnit` over a list of (unit index, descriptor set) pairs in
declaration order, starting from a given batch list. -/
def buildFrom (pairs : List (Nat × List AccessDescriptor))
    (batches : List Batch) : List Batch :=
  match pairs with
  | [] => batches
  | (i, acc) :: rest => buildFrom rest (placeUnit batches i acc)

/-- Modelled from the spec: the Schedule batching algorithm — greedy first-fit
over the units in original declaration order, starting from no batches. -/
def buildBatches (units : List (List AccessDescriptor)) : List Batch :=
  buildFrom units.enum []

/-- Index of the batch containing unit `k`, if any. -/
def batchIndexOf (batches : List Batch) (k : Nat) : Option Nat :=
  batches.findIdx? fun b => b.units.contains k

/-- Well-formedness of a batch list for an access map `A`: every unit placed in
a batch has all its descriptors in that batch's union. -/
def BatchesWF (A : Nat → List AccessDescriptor) (batches : List Batch) : Prop :=
  ∀ b ∈ batches, ∀ k ∈ b.units, ∀ d ∈ A k, d ∈ b.accesses

/-- Separation of a batch list: no two distinct units in one batch conflict. -/
def BatchesSep (A : Nat → List AccessDescriptor) (batches : List Batch) : Prop :=
  ∀ b ∈ batches, ∀ k ∈ b.units, ∀ m ∈ b.units, k ≠ m → ¬ SetConflict (A k) (A m)

theorem placeUnit_wf {A : Nat → List AccessDescriptor} {idx : Nat}
    {acc : List AccessDescriptor} (hA : A idx = acc) :
    ∀ batches, BatchesWF A batches → BatchesWF A (placeUnit batches idx acc) := by
  intro batches
  induction batches with
  | nil =>
    intro _ b hb k hk d hd
    simp only [placeUnit, List.mem_singleton] at hb
    subst hb
    simp only [List.mem_singleton] at hk
    subst hk
    rw [hA] at hd
    exact hd
  | cons b0 rest ih =>
    intro h b hb k hk d hd
    have h0 : BatchesWF A rest := fun b hb => h b (List.mem_cons_of_mem _ hb)
    simp only [placeUnit] at hb
    by_cases hc : setConflicts b0.accesses acc = true
    · rw [if_pos hc] at hb
      rcases List.mem_cons.mp hb with h1 | h2
      · subst h1
        exact h _ (List.mem_cons_self _ _) k hk d hd
      · exact ih h0 b h2 k hk d hd
    · rw [if_neg hc] at hb
      rcases List.mem_cons.mp hb with h1 | h2
      · subst h1
        rcases List.mem_append.mp hk with hk1 | hk2
        · exact List.mem_append_left _ (h b0 (List.mem_cons_self _ _) k hk1 d hd)
        · simp only [List.mem_singleton] at hk2
          subst hk2
          rw [hA] at hd
          exact List.mem_append_right _ hd
      · exact h b (List.mem_cons_of_mem _ h2) k hk d hd

theorem placeUnit_sep {A : Nat → List AccessDescriptor} {idx : Nat}
    {acc : List AccessDescriptor} (hA : A idx = acc) :
    ∀ batches, BatchesWF A batches → BatchesSep A batches →
      BatchesSep A (placeUnit batches idx acc) := by
  intro batches
  induction batches with
  | nil =>
    intro _ _ b hb k hk m hm hkm
    simp only [placeUnit, List.mem_singleton] at hb
    subst hb
    simp only [List.mem_singleton] at hk hm
    subst hk; subst hm
    exact absurd rfl hkm
  | cons b0 rest ih =>
    intro hwf hsep b hb k hk m hm hkm
    have hwf0 : BatchesWF A rest := fun b hb => hwf b (List.mem_cons_of_mem _ hb)
    have hsep0 : BatchesSep A rest := fun b hb => hsep b (List.mem_cons_of_mem _ hb)
    simp only [placeUnit] at hb
    by_cases hc : setConflicts b0.accesses acc = true
    · rw [if_pos hc] at hb
      rcases List.mem_cons.mp hb with h1 | h2
      · subst h1
        exact hsep _ (List.mem_cons_self _ _) k hk m hm hkm
      · exact ih hwf0 hsep0 b h2 k hk m hm hkm
    · rw [if_neg hc] at hb
      rcases List.mem_cons.mp hb with h1 | h2
      · subst h1
        have key : ∀ n ∈ b0.units, ¬ SetConflict (A n) acc := by
          intro n hn hcf
          obtain ⟨d, hd, e, he, hce⟩ := hcf
          have hdb : d ∈ b0.accesses :=
            hwf b0 (List.mem_cons_self _ _) n hn d hd
          exact hc ((setConflicts_iff _ _).mpr ⟨d, hdb, e, he, hce⟩)
        rcases List.mem_append.mp hk with hk1 | hk2 <;>
          rcases List.mem_append.mp hm with hm1 | hm2
        · exact hsep b0 (List.mem_cons_self _ _) k hk1 m hm1 hkm
        · simp only [List.mem_singleton] at hm2
          subst hm2
          intro hx
          rw [hA] at hx
          exact key k hk1 hx
        · simp only [List.mem_singleton] at hk2
          subst hk2
          intro hx
          rw [hA] at hx
          exact key m hm1 (setConflict_symm hx)
        · simp only [List.mem_singleton] at hk2 hm2
          subst hk2; subst hm2
          exact absurd rfl hkm
      · exact hsep b (List.mem_cons_of_mem _ h2) k hk m hm hkm

theorem placeUnit_mem_self (idx : Nat) (acc : List AccessDescriptor) :
    ∀ batches, ∃ b ∈ placeUnit batches idx acc, idx ∈ b.units := by
  intro batches
  induction batches with
  | nil => exact ⟨⟨[idx], acc⟩, by simp [placeUnit]⟩
  | cons b0 rest ih =>
    simp only [placeUnit]
    by_cases hc : setConflicts b0.accesses acc = true
    · rw [if_pos hc]
      obtain ⟨b, hb, hbm⟩ := ih
      exact ⟨b, List.mem_cons_of_mem _ hb, hbm⟩
    · rw [if_neg hc]
      exact ⟨⟨b0.units ++ [idx], b0.accesses ++ acc⟩, List.mem_cons_self _ _, by simp⟩

theorem placeUnit_mem_mono (idx k : Nat) (acc : List AccessDescriptor) :
    ∀ batches, (∃ b ∈ batches, k ∈ b.units) →
      ∃ b ∈ placeUnit batches idx acc, k ∈ b.units := by
  intro batches
  induction batches with
  | nil => intro h; simp at h
  | cons b0 rest ih =>
    intro h
    obtain ⟨b, hb, hbm⟩ := h
    simp only [placeUnit]
    by_cases hc : setConflicts b0.accesses acc = true
    · rw [if_pos hc]
      rcases List.mem_cons.mp hb with h1 | h2
      · subst h1
        exact ⟨b, List.mem_cons_self _ _, hbm⟩
      · obtain ⟨b', hb', hm'⟩ := ih ⟨b, h2, hbm⟩
        exact ⟨b', List.mem_cons_of_mem _ hb', hm'⟩
    · rw [if_neg hc]
      rcases List.mem_cons.mp hb with h1 | h2
      · subst h1
        exact ⟨⟨b.units ++ [idx], b.accesses ++ acc⟩, List.mem_cons_self _ _,
          List.mem_append_left _ hbm⟩
      · exact ⟨b, List.mem_cons_of_mem _ h2, hbm⟩

theorem placeUnit_length (idx : Nat) (acc : List AccessDescriptor) :
    ∀ batches, (placeUnit batches idx acc).length ≤ batches.length + 1 := by
  intro batches
  induction batches with
  | nil => simp [placeUnit]
  | cons b0 rest ih =>
    simp only [placeUnit]
    by_cases hc : setConflicts b0.accesses acc = true
    · rw [if_pos hc]
      simpa using Nat.succ_le_succ ih
    · rw [if_neg hc]
      simp

theorem buildFrom_wf {A : Nat → List AccessDescriptor} :
    ∀ (pairs : List (Nat × List AccessDescriptor)) (batches : List Batch),
      (∀ p ∈ pairs, A p.1 = p.2) → BatchesWF A batches →
      BatchesWF A (buildFrom pairs batches) := by
  intro pairs
  induction pairs with
  | nil => intro batches _ h; simpa [buildFrom] using h
  | cons p rest ih =>
    intro batches hA h
    obtain ⟨i, acc⟩ := p
    simp only [buildFrom]
    exact ih _ (fun q hq => hA q (List.mem_cons_of_mem _ hq))
      (placeUnit_wf (hA (i, acc) (List.mem_cons_self _ _)) _ h)

theorem buildFrom_sep {A : Nat → List AccessDescriptor} :
    ∀ (pairs : List (Nat × List AccessDescriptor)) (batches : List Batch),
      (∀ p ∈ pairs, A p.1 = p.2) → BatchesWF A batches → BatchesSep A batches →
      BatchesSep A (buildFrom pairs batches) := by
  intro pairs
  induction pairs with
  | nil => intro batches _ _ h; simpa [buildFrom] using h
  | cons p rest ih =>
    intro batches hA hwf hsep
    obtain ⟨i, acc⟩ := p
    simp only [buildFrom]
    exact ih _ (fun q hq => hA q (List.mem_cons_of_mem _ hq))
      (placeUnit_wf (hA (i, acc) (List.mem_cons_self _ _)) _ hwf)
      (placeUnit_sep (hA (i, acc) (List.mem_cons_self _ _)) _ hwf hsep)

theorem buildFrom_mem_mono (k : Nat) :
    ∀ (pairs : List (Nat × List AccessDescriptor)) (batches : List Batch),
      (∃ b ∈ batches, k ∈ b.units) →
      ∃ b ∈ buildFrom pairs batches, k ∈ b.units := by
  intro pairs
  induction pairs with
  | nil => intro batches h; simpa [buildFrom] using h
  | cons p rest ih =>
    intro batches h
    obtain ⟨i, acc⟩ := p
    simp only [buildFrom]
    exact ih _ (placeUnit_mem_mono i k acc _ h)

theorem buildFrom_mem {i : Nat} {acc : List AccessDescriptor} :
    ∀ (pairs : List (Nat × List AccessDescriptor)) (batches : List Batch),
      (i, acc) ∈ pairs →
      ∃ b ∈ buildFrom pairs batches, i ∈ b.units := by
  intro pairs
  induction pairs with
  | nil => intro batches h; simp at h
  | cons p rest ih =>
    intro batches h
    rcases List.mem_cons.mp h with h1 | h2
    · subst h1
      simp only [buildFrom]
      exact buildFrom_mem_mono i rest _ (placeUnit_mem_self i acc _)
    · obtain ⟨j, acc2⟩ := p
      simp only [buildFrom]
      exact ih _ h2

theorem buildFrom_length :
    ∀ (pairs : List (Nat × List AccessDescriptor)) (batches : List Batch),
      (buildFrom pairs batches).length ≤ batches.length + pairs.length := by
  intro pairs
  induction pairs with
  | nil => intro batches; simp [buildFrom]
  | cons p rest ih =>
    intro batches
    obtain ⟨i, acc⟩ := p
    simp only [buildFrom, List.length_cons]
    calc (buildFrom rest (placeUnit batches i acc)).length
        ≤ (placeUnit batches i acc).length + rest.length := ih _
      _ ≤ (batches.length + 1) + rest.length :=
          Nat.add_le_add_right (placeUnit_length i acc batches) _
      _ = batches.length + (rest.length + 1) := by omega

theorem enum_getD {us : List (List AccessDescriptor)} :
    ∀ p ∈ us.enum, us.getD p.1 [] = p.2 := by
  intro p hp
  obtain ⟨i, a⟩ := p
  have h : us[i]? = some a := List.mk_mem_enum_iff_getElem?.mp hp
  simp [List.getD, h]

theorem mem_enum_getD {us : List (List AccessDescriptor)} {i : Nat}
    (hi : i < us.length) : (i, us.getD i []) ∈ us.enum := by
  have h : us[i]? = some us[i] := List.getElem?_eq_getElem hi
  exact List.mk_mem_enum_iff_getElem?.mpr (by simp [List.getD, h])

/-- C1 (amended): for every ordered list of unit descriptor sets and every
pair of distinct unit indices whose descriptor sets contain a conflicting pair
(same identity, at least one Write), the batching algorithm places each of the
two units in some batch, and never places both in the same batch. -/
theorem schedule_conflicting_units_in_different_batches
    (us : List (List AccessDescriptor)) (i j : Nat)
    (hi : i < us.length) (hj : j < us.length) (hij : i ≠ j)
    (hc : setConflicts (us.getD i []) (us.getD j []) = true) :
    (∃ b ∈ buildBatches us, i ∈ b.units) ∧
    (∃ b ∈ buildBatches us, j ∈ b.units) ∧
    ∀ b ∈ buildBatches us, ¬ (i ∈ b.units ∧ j ∈ b.units) := by
  have hwf0 : BatchesWF (fun k => us.getD k []) [] := by
    intro b hb
    exact absurd hb (List.not_mem_nil _)
  have hsep0 : BatchesSep (fun k => us.getD k []) [] := by
    intro b hb
    exact absurd hb (List.not_mem_nil _)
  have hsep := buildFrom_sep us.enum [] enum_getD hwf0 hsep0
  refine ⟨buildFrom_mem us.enum [] (mem_enum_getD hi),
    buildFrom_mem us.enum [] (mem_enum_getD hj), ?_⟩
  rintro b hb ⟨hbi, hbj⟩
  exact hsep b hb i hbi j hbj hij ((setConflicts_iff _ _).mp hc)

theorem schedule_conflicting_units_witness :
    ¬ (0 ∈ (Batch.mk [0] [⟨0, Mutability.write⟩]).units ∧
       1 ∈ (Batch.mk [0] [⟨0, Mutability.write⟩]).units) :=
  (schedule_conflicting_units_in_different_batches
      [[⟨0, Mutability.write⟩], [⟨0, Mutability.write⟩]] 0 1
      (by decide) (by decide) (by decide) (by decide)).2.2
    ⟨[0], [⟨0, Mutability.write⟩]⟩ (by decide)

/-- C1 (counterexample): it is not the case that for all unit lists, a
later-declared unit conflicting with an earlier-declared one always lands in a
strictly later batch.  With units [{Write 0}, {Write 0, Write 1}, {Write 1}],
units 1 and 2 conflict on identity 1, yet unit 2 is placed in batch 0 and
unit 1 in batch 1. -/
theorem schedule_strictly_later_batch_counterexample :
    ¬ (∀ (us : List (List AccessDescriptor)) (i j : Nat), i < j →
        j < us.length →
        setConflicts (us.getD i []) (us.getD j []) = true →
        ∀ bi bj : Nat, batchIndexOf (buildBatches us) i = some bi →
          batchIndexOf (buildBatches us) j = some bj → bi < bj) := by
  intro h
  have hx := h [[⟨0, .write⟩], [⟨0, .write⟩, ⟨1, .write⟩], [⟨1, .write⟩]] 1 2
    (by decide) (by decide) (by decide) 1 0 (by decide) (by decide)
  exact absurd hx (by decide)

/-- C2: the batching algorithm is a deterministic function of the unit list —
computing the batch plan twice yields identical plans — it is total
(terminates), and it produces at most N batches for N units. -/
theorem schedule_batching_deterministic (us : List (List AccessDescriptor)) :
    buildBatches us = buildBatches us ∧
    (buildBatches us).length ≤ us.length := by
  refine ⟨rfl, ?_⟩
  have h := buildFrom_length us.enum []
  simpa [buildBatches, List.enum_length] using h

/-- Modelled from the spec: the BorrowRegistry state tracks, per resource
identity, a count of active read borrows and a boolean active-write flag
(module `context` is missing). -/
structure RegState where
  reads : Nat → Nat
  writes : Nat → Bool

/-- The registry at the start of one execution pass: no active borrows. -/
def initRegState : RegState := ⟨fun _ => 0, fun _ => false⟩

/-- Modelled from the spec: the borrow error surfaced on a runtime borrow
conflict (module `error` is missing). -/
inductive BorrowError where
  | accessDenied
deriving DecidableEq, Repr

/-- Increment the read count of one identity. -/
def RegState.incRead (s : RegState) (id : Nat) : RegState :=
  ⟨fun x => if x = id then s.reads x + 1 else s.reads x, s.writes⟩

/-- Decrement the read count of one identity. -/
def RegState.decRead (s : RegState) (id : Nat) : RegState :=
  ⟨fun x => if x = id then s.reads x - 1 else s.reads x, s.writes⟩

/-- Set the active-write flag of one identity. -/
def RegState.setWrite (s : RegState) (id : Nat) : RegState :=
  ⟨s.reads, fun x => if x = id then true else s.writes x⟩

/-- Clear the active-write flag of one identity. -/
def RegState.clearWrite (s : RegState) (id : Nat) : RegState :=
  ⟨s.reads, fun x => if x = id then false else s.writes x⟩

/-- Modelled from the spec: acquire_read fails with AccessDenied if an active
write exists for that identity; increments the read count otherwise. -/
def acquire_read (id : Nat) (s : RegState) : Except BorrowError RegState :=
  if s.writes id then Except.error BorrowError.accessDenied
  else Except.ok (s.incRead id)

/-- Modelled from the spec: acquire_write fails with AccessDenied if any
active read or write exists for that identity; sets the write flag
otherwise. -/
def acquire_write (id : Nat) (s : RegState) : Except BorrowError RegState :=
  if s.writes id || s.reads id != 0 then Except.error BorrowError.accessDenied
  else Except.ok (s.setWrite id)

/-- Modelled from the spec: releasing a read guard decrements the read count;
it is a total function and never fails. -/
def release_read (id : Nat) (s : RegState) : RegState := s.decRead id

/-- Modelled from the spec: releasing a write guard clears the write flag;
it is a total function and never fails. -/
def release_write (id : Nat) (s : RegState) : RegState := s.clearWrite id

/-- One registry operation of an execution pass. -/
inductive RegOp where
  | acquireRead (id : Nat)
  | acquireWrite (id : Nat)
  | releaseRead (id : Nat)
  | releaseWrite (id : Nat)

/-- Apply one operation to the registry state; a denied acquire leaves the
state unchanged. -/
def applyRegOp (s : RegState) (op : RegOp) : RegState :=
  match op with
  | RegOp.acquireRead id =>
    match acquire_read id s with
    | Except.ok t => t
    | Except.error _ => s
  | RegOp.acquireWrite id =>
    match acquire_write id s with
    | Except.ok t => t
    | Except.error _ => s
  | RegOp.releaseRead id => release_read id s
  | RegOp.releaseWrite id => release_write id s

/-- The registry state reached from the empty registry by a sequence of
operations. -/
def runRegOps (ops : List RegOp) : RegState :=
  ops.foldl applyRegOp initRegState

/-- Number of active writes for one identity (the flag viewed as a count). -/
def activeWrites (s : RegState) (id : Nat) : Nat :=
  if s.writes id then 1 else 0

/-- The per-identity invariant: the write flag implies a zero read count. -/
def RegInv (s : RegState) : Prop :=
  ∀ id, s.writes id = true → s.reads id = 0

theorem applyRegOp_inv {s : RegState} (h : RegInv s) (op : RegOp) :
    RegInv (applyRegOp s op) := by
  cases op with
  | acquireRead id =>
    intro j hj
    simp only [applyRegOp, acquire_read] at hj ⊢
    by_cases hw : s.writes id = true
    · rw [if_pos hw] at hj ⊢
      exact h j hj
    · rw [if_neg hw] at hj ⊢
      simp only [RegState.incRead] at hj ⊢
      have hj2 : s.writes j = true := hj
      by_cases hji : j = id
      · subst hji
        exact absurd hj2 hw
      · rw [if_neg hji]
        exact h j hj2
  | acquireWrite id =>
    intro j hj
    simp only [applyRegOp, acquire_write] at hj ⊢
    by_cases hw : (s.writes id || s.reads id != 0) = true
    · rw [if_pos hw] at hj ⊢
      exact h j hj
    · rw [if_neg hw] at hj ⊢
      simp only [RegState.setWrite] at hj ⊢
      by_cases hji : j = id
      · subst hji
        simp only [Bool.or_eq_true, bne_iff_ne, ne_eq] at hw
        push_neg at hw
        exact hw.2
      · rw [if_neg hji] at hj
        exact h j hj
  | releaseRead id =>
    intro j hj
    simp only [applyRegOp, release_read, RegState.decRead] at hj ⊢
    have hj2 : s.writes j = true := hj
    by_cases hji : j = id
    · subst hji
      rw [if_pos rfl, h j hj2]
    · rw [if_neg hji]
      exact h j hj2
  | releaseWrite id =>
    intro j hj
    simp only [applyRegOp, release_write, RegState.clearWrite] at hj ⊢
    by_cases hji : j = id
    · subst hji
      simp at hj
    · rw [if_neg hji] at hj
      exact h j hj

theorem foldl_regInv :
    ∀ (ops : List RegOp) (s : RegState), RegInv s →
      RegInv (ops.foldl applyRegOp s) := by
  intro ops
  induction ops with
  | nil => intro s h; exact h
  | cons op rest ih =>
    intro s h
    exact ih _ (applyRegOp_inv h op)

theorem runRegOps_inv (ops : List RegOp) : RegInv (runRegOps ops) := by
  have base : RegInv initRegState := by
    intro id h
    simp [initRegState] at h
  exact foldl_regInv ops initRegState base

/-- C3: for every reachable state of the BorrowRegistry — any sequence of
acquire_read, acquire_write and release operations starting from the empty
registry — and every resource identity, if the active-write flag for that
identity is true then the active read count is 0, and at most one write is
active for that identity. -/
theorem borrow_registry_invariant (ops : List RegOp) (id : Nat) :
    ((runRegOps ops).writes id = true → (runRegOps ops).reads id = 0) ∧
    activeWrites (runRegOps ops) id ≤ 1 := by
  refine ⟨runRegOps_inv ops id, ?_⟩
  unfold activeWrites
  split <;> omega

theorem borrow_registry_invariant_witness :
    (runRegOps [RegOp.acquireWrite 5]).reads 5 = 0 :=
  (borrow_registry_invariant [RegOp.acquireWrite 5] 5).1 rfl

/-- C4: acquire_read returns AccessDenied exactly when an active write exists
for the identity and otherwise increments that identity's read count by one,
touching nothing else; acquire_write returns AccessDenied exactly when any
active read or write exists for the identity and otherwise sets that
identity's write flag; release is total (never fails) and reverts exactly the
counter its guard set. -/
theorem borrow_registry_acquire_release_spec (s : RegState) (id : Nat) :
    (s.writes id = true →
      acquire_read id s = Except.error BorrowError.accessDenied) ∧
    (s.writes id = false →
      acquire_read id s = Except.ok (s.incRead id) ∧
      (s.incRead id).reads id = s.reads id + 1 ∧
      (∀ j, j ≠ id → (s.incRead id).reads j = s.reads j) ∧
      (∀ j, (s.incRead id).writes j = s.writes j) ∧
      (∀ j, (release_read id (s.incRead id)).reads j = s.reads j) ∧
      (∀ j, (release_read id (s.incRead id)).writes j = s.writes j)) ∧
    ((s.writes id = true ∨ 0 < s.reads id) →
      acquire_write id s = Except.error BorrowError.accessDenied) ∧
    (s.writes id = false → s.reads id = 0 →
      acquire_write id s = Except.ok (s.setWrite id) ∧
      (s.setWrite id).writes id = true ∧
      (∀ j, j ≠ id → (s.setWrite id).writes j = s.writes j) ∧
      (∀ j, (s.setWrite id).reads j = s.reads j) ∧
      (∀ j, (release_write id (s.setWrite id)).writes j = s.writes j) ∧
      (∀ j, (release_write id (s.setWrite id)).reads j = s.reads j)) := by
  refine ⟨?_, ?_, ?_, ?_⟩
  · intro h
    simp [acquire_read, h]
  · intro h
    refine ⟨by simp [acquire_read, h], by simp [RegState.incRead], ?_, ?_, ?_, ?_⟩
    · intro j hj
      simp [RegState.incRead, hj]
    · intro j
      rfl
    · intro j
      by_cases hj : j = id
      · subst hj
        simp [release_read, RegState.decRead, RegState.incRead]
      · simp [release_read, RegState.decRead, RegState.incRead, hj]
    · intro j
      rfl
  · intro h
    have hb : (s.writes id || s.reads id != 0) = true := by
      rcases h with h | h
      · simp [h]
      · simp only [Bool.or_eq_true, bne_iff_ne, ne_eq]
        right
        omega
    simp [acquire_write, hb]
  · intro hw hr
    have hb : (s.writes id || s.reads id != 0) = false := by
      simp [hw, hr]
    refine ⟨by simp [acquire_write, hb], by simp [RegState.setWrite], ?_, ?_, ?_, ?_⟩
    · intro j hj
      simp [RegState.setWrite, hj]
    · intro j
      rfl
    · intro j
      by_cases hj : j = id
      · subst hj
        simp [release_write, RegState.clearWrite, RegState.setWrite, hw]
      · simp [release_write, RegState.clearWrite, RegState.setWrite, hj]
    · intro j
      rfl

theorem borrow_registry_acquire_release_witness :
    acquire_read 0 (initRegState.setWrite 0) =
      Except.error BorrowError.accessDenied ∧
    acquire_read 0 initRegState = Except.ok (initRegState.incRead 0) ∧
    acquire_write 0 (initRegState.setWrite 0) =
      Except.error BorrowError.accessDenied ∧
    acquire_write 1 initRegState = Except.ok (initRegState.setWrite 1) :=
  ⟨(borrow_registry_acquire_release_spec (initRegState.setWrite 0) 0).1 rfl,
   ((borrow_registry_acquire_release_spec initRegState 0).2.1 rfl).1,
   (borrow_registry_acquire_release_spec (initRegState.setWrite 0) 0).2.2.1
     (Or.inl rfl),
   ((borrow_registry_acquire_release_spec initRegState 1).2.2.2 rfl rfl).1⟩

/-- Modelled from the spec: one schedulable work unit as execution sees it —
an identity for diagnostics, the side resources it requires from the context
sources, whether its own body succeeds, and the CommandBuffer effects it
enqueues when it runs (modules `system` and `schedule` are missing). -/
structure SysUnit where
  uid : Nat
  required : List Nat
  ok : Bool
  effects : List Nat
deriving DecidableEq, Repr

/-- Modelled from the spec: the schedule-level error taxonomy relevant to
execution — MissingResource and UnitFailure, each naming the failing unit
(module `error` is missing). -/
inductive ScheduleError where
  | missingResource (uid : Nat)
  | unitFailure (uid : Nat)
deriving DecidableEq, Repr

/-- Modelled from the spec: run one unit against the supplied context
sources: a required resource absent from the sources fails the unit with
MissingResource naming it; otherwise the unit's own result is reported,
a failure being wrapped as UnitFailure naming it. -/
def runUnit (sources : List Nat) (u : SysUnit) :
    Except ScheduleError (List Nat) :=
  if u.required.any (fun r => !(sources.contains r)) then
    Except.error (ScheduleError.missingResource u.uid)
  else if u.ok then Except.ok u.effects
  else Except.error (ScheduleError.unitFailure u.uid)

/-- Modelled from the spec: run every unit of one batch; effects of
successful units are collected in declaration order, a failing unit does not
abort the other units of the batch, and the first failure in declaration
order is the batch's reported error. -/
def runBatch (sources : List Nat) (units : List SysUnit) :
    List Nat × Option ScheduleError :=
  match units with
  | [] => ([], none)
  | u :: rest =>
    match runUnit sources u with
    | Except.ok eff => (eff ++ (runBatch sources rest).1, (runBatch sources rest).2)
    | Except.error e => ((runBatch sources rest).1, some e)

/-- Modelled from the spec: execute batches strictly sequentially; after a
batch with a fatal failure no further batch runs and the final CommandBuffer
drain is not attempted; with no failure every batch runs and the final drain
is performed.  Returns the collected effects in execution order, whether the
final drain was performed, and the first fatal error if any. -/
def execute (sources : List Nat) (batches : List (List SysUnit)) :
    List Nat × Bool × Option ScheduleError :=
  match batches with
  | [] => ([], true, none)
  | b :: rest =>
    match (runBatch sources b).2 with
    | some e => ((runBatch sources b).1, false, some e)
    | none =>
      ((runBatch sources b).1 ++ (execute sources rest).1,
        (execute sources rest).2.1, (execute sources rest).2.2)

theorem execute_first_failure (sources : List Nat) :
    ∀ (pre : List (List SysUnit)) (bk : List SysUnit)
      (post : List (List SysUnit)) (e : ScheduleError),
      (∀ b ∈ pre, (runBatch sources b).2 = none) →
      (runBatch sources bk).2 = some e →
      execute sources (pre ++ bk :: post) =
        ((pre.map fun b => (runBatch sources b).1).flatten ++
            (runBatch sources bk).1, false, some e) := by
  intro pre
  induction pre with
  | nil =>
    intro bk post e _ hk
    simp only [List.nil_append, List.map_nil, List.flatten_nil]
    rw [execute, hk]
  | cons b0 rest ih =>
    intro bk post e hpre hk
    have h0 : (runBatch sources b0).2 = none :=
      hpre b0 (List.mem_cons_self _ _)
    rw [List.cons_append, execute, h0,
      ih bk post e (fun b hb => hpre b (List.mem_cons_of_mem _ hb)) hk]
    simp

theorem runBatch_error_isSome (sources : List Nat) :
    ∀ (units : List SysUnit) (u : SysUnit) (e : ScheduleError),
      u ∈ units → runUnit sources u = Except.error e →
      ((runBatch sources units).2).isSome = true := by
  intro units
  induction units with
  | nil => intro u e hu _; exact absurd hu (List.not_mem_nil u)
  | cons v rest ih =>
    intro u e hu hue
    rcases List.mem_cons.mp hu with h1 | h2
    · subst h1
      rw [runBatch, hue]
      rfl
    · cases hveq : runUnit sources v with
      | ok eff =>
        rw [runBatch, hveq]
        exact ih u e h2 hue
      | error e0 =>
        rw [runBatch, hveq]
        rfl

theorem runBatch_first_error (sources : List Nat) :
    ∀ (b1 : List SysUnit) (u : SysUnit) (b2 : List SysUnit)
      (e : ScheduleError),
      (∀ v ∈ b1, ∃ eff, runUnit sources v = Except.ok eff) →
      runUnit sources u = Except.error e →
      (runBatch sources (b1 ++ u :: b2)).2 = some e := by
  intro b1
  induction b1 with
  | nil =>
    intro u b2 e _ hu
    rw [List.nil_append, runBatch, hu]
  | cons v rest ih =>
    intro u b2 e hok hu
    obtain ⟨eff, heff⟩ := hok v (List.mem_cons_self _ _)
    rw [List.cons_append, runBatch, heff]
    exact ih u b2 e (fun w hw => hok w (List.mem_cons_of_mem _ hw)) hu

/-- C5: if every batch before batch k succeeds and some unit in batch k
returns a fatal error, then batch k reports an error, execution yields
exactly the effects of batches 0..k — batch k still drains, no later batch
contributes anything, and nothing already enqueued is rolled back — the
final CommandBuffer drain is not performed, and the first error of batch k
is returned. -/
theorem schedule_execute_stops_on_failure (sources : List Nat)
    (pre : List (List SysUnit)) (bk : List SysUnit)
    (post : List (List SysUnit)) (u : SysUnit) (e : ScheduleError)
    (hpre : ∀ b ∈ pre, (runBatch sources b).2 = none)
    (hu : u ∈ bk) (hue : runUnit sources u = Except.error e) :
    ((runBatch sources bk).2).isSome = true ∧
    execute sources (pre ++ bk :: post) =
      ((pre.map fun b => (runBatch sources b).1).flatten ++
          (runBatch sources bk).1, false, (runBatch sources bk).2) := by
  have hs := runBatch_error_isSome sources bk u e hu hue
  obtain ⟨e0, he0⟩ := Option.isSome_iff_exists.mp hs
  refine ⟨hs, ?_⟩
  rw [execute_first_failure sources pre bk post e0 hpre he0, he0]

theorem schedule_execute_stops_witness :
    ((runBatch [] [⟨1, [], false, [2]⟩]).2).isSome = true ∧
    execute []
        [[⟨0, [], true, [1]⟩], [⟨1, [], false, [2]⟩], [⟨2, [], true, [3]⟩]] =
      (([[⟨0, [], true, [1]⟩]].map fun b => (runBatch [] b).1).flatten ++
          (runBatch [] [⟨1, [], false, [2]⟩]).1,
        false, (runBatch [] [⟨1, [], false, [2]⟩]).2) :=
  schedule_execute_stops_on_failure [] [[⟨0, [], true, [1]⟩]]
    [⟨1, [], false, [2]⟩] [[⟨2, [], true, [3]⟩]] ⟨1, [], false, [2]⟩
    (ScheduleError.unitFailure 1) (by decide) (by decide) rfl

/-- C8: if a unit declares a required side resource that the context sources
do not supply, every earlier batch succeeds and every unit before it in its
batch succeeds, then the unit fails with MissingResource naming it, execute
returns that error, and no batch after the one containing the unit runs —
the result is exactly the effects of the batches up to and including the
unit's batch, with the final drain not performed. -/
theorem schedule_execute_missing_resource (sources : List Nat)
    (pre : List (List SysUnit)) (b1 : List SysUnit) (u : SysUnit)
    (b2 : List SysUnit) (post : List (List SysUnit)) (r : Nat)
    (hpre : ∀ b ∈ pre, (runBatch sources b).2 = none)
    (hb1 : ∀ v ∈ b1, ∃ eff, runUnit sources v = Except.ok eff)
    (hr : r ∈ u.required) (hs : sources.contains r = false) :
    runUnit sources u = Except.error (ScheduleError.missingResource u.uid) ∧
    execute sources (pre ++ (b1 ++ u :: b2) :: post) =
      ((pre.map fun b => (runBatch sources b).1).flatten ++
          (runBatch sources (b1 ++ u :: b2)).1,
        false, some (ScheduleError.missingResource u.uid)) := by
  have hmiss : u.required.any (fun x => !(sources.contains x)) = true :=
    List.any_eq_true.mpr ⟨r, hr, by show (!sources.contains r) = true; rw [hs]; rfl⟩
  have hu : runUnit sources u =
      Except.error (ScheduleError.missingResource u.uid) := by
    rw [runUnit, if_pos hmiss]
  refine ⟨hu, ?_⟩
  exact execute_first_failure sources pre (b1 ++ u :: b2) post
    (ScheduleError.missingResource u.uid) hpre
    (runBatch_first_error sources b1 u b2 _ hb1 hu)

theorem schedule_execute_missing_resource_witness :
    runUnit [7] ⟨3, [9], true, []⟩ =
      Except.error (ScheduleError.missingResource 3) ∧
    execute [7] [[⟨3, [9], true, []⟩], [⟨4, [], true, []⟩]] =
      ((([] : List (List SysUnit)).map fun b => (runBatch [7] b).1).flatten ++
          (runBatch [7] [⟨3, [9], true, []⟩]).1,
        false, some (ScheduleError.missingResource 3)) :=
  schedule_execute_missing_resource [7] [] [] ⟨3, [9], true, []⟩ []
    [[⟨4, [], true, []⟩]] 9 (fun b hb => absurd hb (List.not_mem_nil b))
    (fun v hv => absurd hv (List.not_mem_nil v)) (by decide) (by decide)

/-- Modelled from the spec: the structured store as SubWorld sees it — a list
of entities, each with its components as (component identity, value) pairs
(the store is an external collaborator). -/
def Store := List (Nat × List (Nat × Nat))

/-- Modelled from the spec: a SubWorld is a capability view over the store
carrying a fixed declared set of component identities (module `subworld` is
missing). -/
structure SubWorld where
  declared : List Nat
  store : Store

/-- Modelled from the spec: the SubWorld-level error taxonomy —
UnauthorizedComponent, NoSuchEntity and NotFound (module `error` is
missing). -/
inductive ComponentError where
  | unauthorizedComponent
  | noSuchEntity
  | notFound
deriving DecidableEq, Repr

/-- Modelled from the spec: SubWorld.get fails with UnauthorizedComponent if
the component identity is not in the declared set — regardless of the store
contents — or NoSuchEntity if the entity is unknown, or NotFound if the
entity lacks the component; otherwise it yields the component value. -/
def SubWorld.get (w : SubWorld) (comp : Nat) (e : Nat) :
    Except ComponentError Nat :=
  if comp ∈ w.declared then
    match w.store.lookup e with
    | none => Except.error ComponentError.noSuchEntity
    | some comps =>
      match comps.lookup comp with
      | none => Except.error ComponentError.notFound
      | some v => Except.ok v
  else Except.error ComponentError.unauthorizedComponent

/-- Modelled from the spec: SubWorld.query fails with UnauthorizedComponent
if the pattern includes a component identity outside the declared set;
otherwise it yields the entities holding every requested component together
with the matched component values. -/
def SubWorld.query (w : SubWorld) (pattern : List Nat) :
    Except ComponentError (List (Nat × List Nat)) :=
  if pattern.all (fun c => w.declared.contains c) then
    Except.ok (w.store.filterMap fun p =>
      if pattern.all (fun c => (p.2.lookup c).isSome) then
        some (p.1, pattern.filterMap fun c => p.2.lookup c)
      else none)
  else Except.error ComponentError.unauthorizedComponent

/-- C6: for every SubWorld, entity and component identity outside the
SubWorld's declared set, SubWorld.get fails with UnauthorizedComponent
regardless of whether the entity exists or holds the component, and every
query whose pattern includes that component fails with
UnauthorizedComponent. -/
theorem subworld_unauthorized_component (w : SubWorld) (comp e : Nat)
    (pattern : List Nat) (hc : comp ∉ w.declared) :
    w.get comp e = Except.error ComponentError.unauthorizedComponent ∧
    (comp ∈ pattern →
      w.query pattern = Except.error ComponentError.unauthorizedComponent) := by
  constructor
  · rw [SubWorld.get, if_neg hc]
  · intro hp
    have hall : pattern.all (fun c => w.declared.contains c) = false := by
      rw [List.all_eq_false]
      exact ⟨comp, hp, by simp [hc]⟩
    rw [SubWorld.query, hall]
    rfl

theorem subworld_unauthorized_component_witness :
    SubWorld.get ⟨[1], [(0, [(2, 5)])]⟩ 2 0 =
      Except.error ComponentError.unauthorizedComponent ∧
    SubWorld.query ⟨[1], [(0, [(2, 5)])]⟩ [2] =
      Except.error ComponentError.unauthorizedComponent :=
  ⟨(subworld_unauthorized_component ⟨[1], [(0, [(2, 5)])]⟩ 2 0 [2]
      (by decide)).1,
   (subworld_unauthorized_component ⟨[1], [(0, [(2, 5)])]⟩ 2 0 [2]
      (by decide)).2 (by decide)⟩

/-- Modelled from the spec: the store as the CommandBuffer drain mutates it —
entities with their components, plus the counter from which spawned entities
draw their resolved identities (placeholder resolution). -/
structure World where
  nextId : Nat
  entities : List (Nat × List (Nat × Nat))
deriving DecidableEq, Repr

/-- Modelled from the spec: one pending mutation record of the CommandBuffer —
spawn with a component set, despawn, component insertion and removal, and an
arbitrary deferred closure over the store (module `commandbuffer` is
missing). -/
inductive Record where
  | spawn (comps : List (Nat × Nat))
  | despawn (e : Nat)
  | insert (e : Nat) (comp : Nat) (val : Nat)
  | remove (e : Nat) (comp : Nat)
  | defer (f : World → World)

/-- Modelled from the spec: apply one record to the store.  A spawn resolves
its placeholder to the next fresh identity; despawning an entity that does
not (or no longer) exists leaves the store unchanged — a no-op, not an
error. -/
def applyRecord (w : World) (r : Record) : World :=
  match r with
  | Record.spawn comps => ⟨w.nextId + 1, w.entities ++ [(w.nextId, comps)]⟩
  | Record.despawn e => ⟨w.nextId, w.entities.filter fun p => p.1 != e⟩
  | Record.insert e comp val =>
    ⟨w.nextId, w.entities.map fun p =>
      if p.1 = e then (p.1, (comp, val) :: p.2.filter fun c => c.1 != comp)
      else p⟩
  | Record.remove e comp =>
    ⟨w.nextId, w.entities.map fun p =>
      if p.1 = e then (p.1, p.2.filter fun c => c.1 != comp) else p⟩
  | Record.defer f => f w

/-- Modelled from the spec: drain applies every enqueued record to the store
in enqueue order, sequentially. -/
def drain (buf : List Record) (w : World) : World :=
  buf.foldl applyRecord w

/-- C7: drain applies the records in exactly the enqueue order — the head
record is applied first and draining a concatenation drains the first part
before the second — draining an empty buffer performs no store mutation, and
despawning an entity that does not (or no longer) exists is a no-op rather
than an error. -/
theorem commandbuffer_drain_spec (buf1 buf2 : List Record) (r : Record)
    (w : World) (e : Nat) (he : ∀ p ∈ w.entities, p.1 ≠ e) :
    drain (r :: buf1) w = drain buf1 (applyRecord w r) ∧
    drain (buf1 ++ buf2) w = drain buf2 (drain buf1 w) ∧
    drain [] w = w ∧
    drain [Record.despawn e] w = w := by
  refine ⟨rfl, ?_, rfl, ?_⟩
  · rw [drain, drain, drain, List.foldl_append]
  · show applyRecord w (Record.despawn e) = w
    rw [applyRecord]
    have hf : w.entities.filter (fun p => p.1 != e) = w.entities :=
      List.filter_eq_self.mpr fun p hp => by simp [he p hp]
    rw [hf]

theorem commandbuffer_drain_witness :
    drain [Record.despawn 3] ⟨2, [(0, []), (1, [(4, 4)])]⟩ =
      ⟨2, [(0, []), (1, [(4, 4)])]⟩ :=
  (commandbuffer_drain_spec [] [] (Record.spawn []) ⟨2, [(0, []), (1, [(4, 4)])]⟩ 3
    (by decide)).2.2.2

/-- Expansion of impl_into_borrow for Read (src/borrow/into_borrow.rs line
35): the hidden Borrower type's ContextBorrow::borrow delegates to the
target's borrow.  The Context and error types of the missing `context` and
`error` modules, and the target type Read, are abstract parameters, and the
target's borrow implementation is passed as a function. -/
def Borrower.borrow {Context Error Target : Type}
    (target_borrow : Context → Except Error Target) (context : Context) :
    Except Error Target :=
  target_borrow context

/-- Expansion of impl_into_borrow for Write (src/borrow/into_borrow.rs line
36): BorrowMut's borrow delegates to the target's borrow. -/
def BorrowMut.borrow {Context Error Target : Type}
    (target_borrow : Context → Except Error Target) (context : Context) :
    Except Error Target :=
  target_borrow context

/-- Expansion of impl_into_borrow for MaybeRead (src/borrow/into_borrow.rs
line 37): MaybeBorrower's borrow delegates to the target's borrow. -/
def MaybeBorrower.borrow {Context Error Target : Type}
    (target_borrow : Context → Except Error Target) (context : Context) :
    Except Error Target :=
  target_borrow context

/-- Expansion of impl_into_borrow for MaybeWrite (src/borrow/into_borrow.rs
line 38): MaybeBorrowerMut's borrow delegates to the target's borrow. -/
def MaybeBorrowerMut.borrow {Context Error Target : Type}
    (target_borrow : Context → Except Error Target) (context : Context) :
    Except Error Target :=
  target_borrow context

/-- Expansion of impl_into_borrow for SubWorld (src/borrow/into_borrow.rs
line 39): SubWorldBorrower's borrow delegates to the target's borrow. -/
def SubWorldBorrower.borrow {Context Error Target : Type}
    (target_borrow : Context → Except Error Target) (context : Context) :
    Except Error Target :=
  target_borrow context

/-- C9: for every wrapper type generated by impl_into_borrow (Borrower,
BorrowMut, MaybeBorrower, MaybeBorrowerMut, SubWorldBorrower) and every
context, borrowing through the lifetime-erased IntoBorrow::Borrow type
returns exactly the same result — the same value or the same error — as
calling borrow directly on the corresponding target type (Read, Write,
MaybeRead, MaybeWrite, SubWorld) with that context. -/
theorem into_borrow_same_result {Context Error R W MR MW SW : Type}
    (readBorrow : Context → Except Error R)
    (writeBorrow : Context → Except Error W)
    (maybeReadBorrow : Context → Except Error MR)
    (maybeWriteBorrow : Context → Except Error MW)
    (subWorldBorrow : Context → Except Error SW) (context : Context) :
    Borrower.borrow readBorrow context = readBorrow context ∧
    BorrowMut.borrow writeBorrow context = writeBorrow context ∧
    MaybeBorrower.borrow maybeReadBorrow context = maybeReadBorrow context ∧
    MaybeBorrowerMut.borrow maybeWriteBorrow context =
      maybeWriteBorrow context ∧
    SubWorldBorrower.borrow subWorldBorrow context = subWorldBorrow context :=
  ⟨rfl, rfl, rfl, rfl, rfl⟩

/-- The View trait from src/traits.rs: a type which represents a view or
subset of some other type, with a split operation from the superset. -/
class View (α : Type) where
  Superset : Type
  split : Superset → α

/-- A shared reference value, modelling the Rust type of shared references. -/
structure Ref (T : Type) where
  val : T
deriving DecidableEq, Repr

/-- A mutable reference value, modelling the Rust type of unique
references. -/
structure RefMut (T : Type) where
  val : T
deriving DecidableEq, Repr

/-- The impl of View for shared references in src/traits.rs lines 15-21: the
superset is the type itself and split returns its argument unchanged — a set
is always its own subset. -/
instance instViewRef (T : Type) : View (Ref T) where
  Superset := Ref T
  split orig := orig

/-- The impl of View for mutable references in src/traits.rs lines 23-29:
the superset is the type itself and split returns its argument unchanged. -/
instance instViewRefMut (T : Type) : View (RefMut T) where
  Superset := RefMut T
  split orig := orig

/-- C10: for every type and every reference value, View::split for the
shared-reference and mutable-reference views is the identity function: split
returns its argument unchanged. -/
theorem view_split_identity {T : Type} (orig : Ref T) (origMut : RefMut T) :
    View.split orig = orig ∧ View.split origMut = origMut :=
  ⟨rfl, rfl⟩
